import Mathlib

/-!
Shallow embedding of the bufreaderwriter crate: dual-mode buffered stream
adapters.  BufReaderWriterSeq (src/seq.rs) wraps a non-seekable sequential
channel and keeps a carry-over buffer across read-to-write mode switches;
BufReaderWriterRand (src/rand.rs, and its near-duplicate historical variant
BufReaderWriter in src/lib.rs) wraps a seekable channel and repositions the
cursor instead.  The std BufReader and BufWriter wrappers are external
capabilities; they are modelled as explicit lookahead and write-back buffers
over a scripted channel.  Bytes are modelled as Nat; fallible operations
return Except IoErr; a state that the original code reaches only through an
unwrap panic is modelled as the none case of an Option result.  Channel
faults are injected through finite scripts carried by the channel state; an
exhausted script means every remaining call succeeds in full.  One model
choice for the external wrappers: a failed channel write or flush leaves the
writer unchanged (an atomic all-or-nothing capability), where std may flush
a prefix before failing.
-/

/-- An opaque I/O error, propagated verbatim. -/
structure IoErr where
  code : Nat
deriving DecidableEq

/-- Scripted behavior of one raw read call on the sequential channel:
either it yields up to n bytes, or it fails with an error. -/
inductive RawRead where
  | ok (n : Nat) : RawRead
  | fail (e : IoErr) : RawRead
deriving DecidableEq

/-- A non-seekable sequential channel (for example a socket): bytes still to
be produced, bytes written so far, and fault scripts for raw reads and raw
writes. -/
structure Chan where
  input : List Nat
  output : List Nat
  rscript : List RawRead
  wfaults : List (Option IoErr)
deriving DecidableEq

/-- One raw read of up to n bytes from the sequential channel.  The script
bounds or fails the read; an exhausted script yields everything asked for. -/
def Chan.read (n : Nat) (c : Chan) : Except IoErr (List Nat × Chan) :=
  match c.rscript with
  | [] => .ok (c.input.take n, { c with input := c.input.drop n })
  | RawRead.fail e :: _ => .error e
  | RawRead.ok m :: rest =>
    let k := min m n
    .ok (c.input.take k, { c with input := c.input.drop k, rscript := rest })

/-- One raw write to the sequential channel, appending to the output log. -/
def Chan.write (bs : List Nat) (c : Chan) : Except IoErr Chan :=
  match c.wfaults with
  | some e :: _ => .error e
  | none :: rest => .ok { c with output := c.output ++ bs, wfaults := rest }
  | [] => .ok { c with output := c.output ++ bs }

/-- Default capacity of the std buffered wrappers. -/
def defaultBufCap : Nat := 8192

/-- Model of std BufReader over a sequential channel: a capacity and the
unconsumed lookahead bytes. -/
structure BufReader where
  cap : Nat
  buf : List Nat
  chan : Chan
deriving DecidableEq

/-- std BufReader::read: with an empty lookahead a request of at least the
capacity bypasses the lookahead buffer; a smaller request refills the
lookahead with one raw channel read of up to cap bytes and serves from it;
a non-empty lookahead is served directly without touching the channel. -/
def BufReader.read (n : Nat) (r : BufReader) : Except IoErr (List Nat × BufReader) :=
  if r.buf = [] then
    if r.cap ≤ n then
      match Chan.read n r.chan with
      | .error e => .error e
      | .ok (bs, c) => .ok (bs, { r with chan := c })
    else
      match Chan.read r.cap r.chan with
      | .error e => .error e
      | .ok (bs, c) => .ok (bs.take n, { r with buf := bs.drop n, chan := c })
  else
    .ok (r.buf.take n, { r with buf := r.buf.drop n })

/-- Model of std BufWriter over a sequential channel: a capacity and the
not-yet-flushed bytes. -/
structure BufWriter where
  cap : Nat
  buf : List Nat
  chan : Chan
deriving DecidableEq

/-- std BufWriter::flush: push the buffered bytes to the channel. -/
def BufWriter.flush (w : BufWriter) : Except IoErr BufWriter :=
  if w.buf = [] then .ok w
  else
    match Chan.write w.buf w.chan with
    | .error e => .error e
    | .ok c => .ok { w with buf := [], chan := c }

/-- std BufWriter::write: flush first if the new bytes would overflow the
buffer, then either write through directly (large writes) or buffer. -/
def BufWriter.write (bs : List Nat) (w : BufWriter) : Except IoErr (Nat × BufWriter) :=
  if w.cap < w.buf.length + bs.length then
    match BufWriter.flush w with
    | .error e => .error e
    | .ok w1 =>
      if w1.cap ≤ bs.length then
        match Chan.write bs w1.chan with
        | .error e => .error e
        | .ok c => .ok (bs.length, { w1 with chan := c })
      else .ok (bs.length, { w1 with buf := bs })
  else .ok (bs.length, { w with buf := w.buf ++ bs })

/-- std BufWriter::into_inner: flush, then give the channel back. -/
def BufWriter.intoInner (w : BufWriter) : Except IoErr Chan :=
  match BufWriter.flush w with
  | .error e => .error e
  | .ok w1 => .ok w1.chan

/-- The tagged union of the two wrappers (enum BufIO in src/seq.rs). -/
inductive BufIo where
  | Reader (r : BufReader) : BufIo
  | Writer (w : BufWriter) : BufIo
deriving DecidableEq

/-- BufIO::capacity. -/
def BufIo.capacity : BufIo → Nat
  | .Reader r => r.cap
  | .Writer w => w.cap

/-- BufIO::new_reader: build a buffered reader with the given capacity, or
the library default when none is given. -/
def BufIo.new_reader (rw : Chan) (capacity : Option Nat) : BufIo :=
  .Reader ⟨capacity.getD defaultBufCap, [], rw⟩

/-- BufIO::new_writer. -/
def BufIo.new_writer (rw : Chan) (capacity : Option Nat) : BufIo :=
  .Writer ⟨capacity.getD defaultBufCap, [], rw⟩

/-- The sequential dual-mode stream (struct BufReaderWriterSeq in
src/seq.rs): the active wrapper, the optional carry-over buffer with its
cursor pos, and the configured capacity. -/
structure BufReaderWriterSeq where
  inner : Option BufIo
  buffer : Option (List Nat)
  pos : Nat
  capacity : Option Nat
deriving DecidableEq

/-- BufReaderWriterSeq::new_writer. -/
def BufReaderWriterSeq.new_writer (rw : Chan) : BufReaderWriterSeq :=
  ⟨some (BufIo.new_writer rw none), none, 0, none⟩

/-- BufReaderWriterSeq::writer_with_capacity. -/
def BufReaderWriterSeq.writer_with_capacity (c : Nat) (rw : Chan) : BufReaderWriterSeq :=
  ⟨some (BufIo.new_writer rw (some c)), none, 0, some c⟩

/-- BufReaderWriterSeq::new_reader. -/
def BufReaderWriterSeq.new_reader (rw : Chan) : BufReaderWriterSeq :=
  ⟨some (BufIo.new_reader rw none), none, 0, none⟩

/-- BufReaderWriterSeq::reader_with_capacity. -/
def BufReaderWriterSeq.reader_with_capacity (c : Nat) (rw : Chan) : BufReaderWriterSeq :=
  ⟨some (BufIo.new_reader rw (some c)), none, 0, some c⟩

/-- BufReaderWriterSeq::buffer (accessor): the unconsumed slice of the
carry-over buffer.  Named bufferFn because the field keeps the name buffer. -/
def BufReaderWriterSeq.bufferFn (s : BufReaderWriterSeq) : Option (List Nat) :=
  s.buffer.map fun b => b.drop s.pos

/-- BufReaderWriterSeq::capacity (accessor). -/
def BufReaderWriterSeq.capacityFn (s : BufReaderWriterSeq) : Nat :=
  (s.inner.map BufIo.capacity).getD 0

/-- BufReaderWriterSeq::is_reader. -/
def BufReaderWriterSeq.is_reader (s : BufReaderWriterSeq) : Bool :=
  match s.inner with
  | some (BufIo.Reader _) => true
  | _ => false

/-- BufReaderWriterSeq::consume: advance pos; drop the carry-over buffer
once everything is consumed. -/
def BufReaderWriterSeq.consume (amt : Nat) (s : BufReaderWriterSeq) : BufReaderWriterSeq :=
  match s.buffer with
  | some b =>
    if b.length ≤ s.pos + amt then { s with pos := s.pos + amt, buffer := none }
    else { s with pos := s.pos + amt }
  | none => s

/-- Reader-mode body of BufReaderWriterSeq::read (the Reader arm of the
match in the source); the caller passes s with s.inner holding
BufIo.Reader r.  Returns the delivered bytes (their length is the returned
count) and the post state. -/
def BufReaderWriterSeq.readR (n : Nat) (r : BufReader) (s : BufReaderWriterSeq) :
    Except IoErr (List Nat) × BufReaderWriterSeq :=
  match s.buffer with
  | some b =>
    if n ≤ b.length - s.pos then
      if n < b.length - s.pos then
        (.ok ((b.drop s.pos).take n), { s with pos := s.pos + n })
      else (.ok ((b.drop s.pos).take n), { s with buffer := none })
    else
      match BufReader.read (n - (b.length - s.pos)) r with
      | .ok (bs, r') =>
        (.ok ((b.drop s.pos).take (b.length - s.pos) ++ bs),
          { s with buffer := none, inner := some (BufIo.Reader r') })
      | .error e => (.error e, s)
  | none =>
    match BufReader.read n r with
    | .ok (bs, r') => (.ok bs, { s with inner := some (BufIo.Reader r') })
    | .error e => (.error e, s)

/-- BufReaderWriterSeq::read.  In write mode: flush, reclaim the channel,
rebuild a reader with the configured capacity and re-dispatch once (the
recursive call in the source necessarily lands in the Reader arm, inlined
here as readR).  The none result models the unwrap panic on a stream with
no active mode. -/
def BufReaderWriterSeq.read (n : Nat) (s : BufReaderWriterSeq) :
    Option (Except IoErr (List Nat) × BufReaderWriterSeq) :=
  match s.inner with
  | none => none
  | some (BufIo.Reader r) => some (BufReaderWriterSeq.readR n r s)
  | some (BufIo.Writer w) =>
    match BufWriter.flush w with
    | .error e => some (.error e, s)
    | .ok w1 =>
      match BufWriter.intoInner w1 with
      | .error e => some (.error e, { s with inner := none })
      | .ok rw =>
        let r : BufReader := ⟨s.capacity.getD defaultBufCap, [], rw⟩
        some (BufReaderWriterSeq.readR n r { s with inner := some (BufIo.Reader r) })

/-- Writer-mode body of BufReaderWriterSeq::write; the caller passes s with
s.inner already holding BufIo.Writer w. -/
def BufReaderWriterSeq.writeW (bs : List Nat) (w : BufWriter) (s : BufReaderWriterSeq) :
    Except IoErr Nat × BufReaderWriterSeq :=
  match BufWriter.write bs w with
  | .ok (n, w') => (.ok n, { s with inner := some (BufIo.Writer w') })
  | .error e => (.error e, s)

/-- BufReaderWriterSeq::write.  In read mode: capture a non-empty lookahead
into the carry-over buffer at pos 0 (skip capture when empty), reclaim the
channel, rebuild a writer with the configured capacity and retry once. -/
def BufReaderWriterSeq.write (bs : List Nat) (s : BufReaderWriterSeq) :
    Option (Except IoErr Nat × BufReaderWriterSeq) :=
  match s.inner with
  | none => none
  | some (BufIo.Writer w) => some (BufReaderWriterSeq.writeW bs w s)
  | some (BufIo.Reader r) =>
    let s1 := if r.buf = [] then s else { s with buffer := some r.buf, pos := 0 }
    let w : BufWriter := ⟨s.capacity.getD defaultBufCap, [], r.chan⟩
    some (BufReaderWriterSeq.writeW bs w { s1 with inner := some (BufIo.Writer w) })

/-- BufReaderWriterSeq::flush: flush the writer if one is active, else a
no-op. -/
def BufReaderWriterSeq.flush (s : BufReaderWriterSeq) :
    Except IoErr Unit × BufReaderWriterSeq :=
  match s.inner with
  | some (BufIo.Writer w) =>
    match BufWriter.flush w with
    | .ok w' => (.ok (), { s with inner := some (BufIo.Writer w') })
    | .error e => (.error e, s)
  | _ => (.ok (), s)

/-- The unconsumed part of the carry-over buffer, as a list. -/
def BufReaderWriterSeq.carryRem (s : BufReaderWriterSeq) : List Nat :=
  match s.buffer with
  | some b => b.drop s.pos
  | none => []

/-- Bytes still owed to the reader by the active wrapper: reader lookahead
plus channel input; in write mode just the channel input. -/
def BufIo.pending : BufIo → List Nat
  | .Reader r => r.buf ++ r.chan.input
  | .Writer w => w.chan.input

/-- The full future read stream of a sequential stream: carry-over bytes
first, then the active wrapper's bytes. -/
def BufReaderWriterSeq.pending (s : BufReaderWriterSeq) : List Nat :=
  s.carryRem ++ (match s.inner with
    | some x => x.pending
    | none => [])

/-- One public operation on the sequential stream. -/
inductive Op where
  | read (n : Nat) : Op
  | write (bs : List Nat) : Op
  | flush : Op
  | consume (amt : Nat) : Op
deriving DecidableEq

/-- Run one operation, keeping only the post state; none models a panic. -/
def stepOp (op : Op) (s : BufReaderWriterSeq) : Option BufReaderWriterSeq :=
  match op with
  | .read n => (BufReaderWriterSeq.read n s).map Prod.snd
  | .write bs => (BufReaderWriterSeq.write bs s).map Prod.snd
  | .flush => some (BufReaderWriterSeq.flush s).2
  | .consume amt => some (BufReaderWriterSeq.consume amt s)

/-- Run a sequence of operations. -/
def runOps : List Op → BufReaderWriterSeq → Option BufReaderWriterSeq
  | [], s => some s
  | op :: ops, s => (stepOp op s).bind (runOps ops)

/-- Well-formedness of the carry-over buffer: when present, pos is strictly
below its length. -/
def bufWf (s : BufReaderWriterSeq) : Bool :=
  match s.buffer with
  | some b => decide (s.pos < b.length)
  | none => true

/-- Reachable-state fact: while a carry-over buffer is present in read
mode, the active reader's lookahead is empty. -/
def carryWf (s : BufReaderWriterSeq) : Bool :=
  match s.buffer, s.inner with
  | some _, some (BufIo.Reader r) => decide (r.buf = [])
  | _, _ => true

/-- Capacity invariant: the configured capacity is c and the active wrapper
was built with capacity c. -/
def capWf (c : Nat) (s : BufReaderWriterSeq) : Bool :=
  decide (s.capacity = some c) &&
  (match s.inner with
   | some x => decide (BufIo.capacity x = c)
   | none => false)

/-- A seekable random-access channel (for example a file): contents, a
cursor, and fault scripts for raw reads, writes and seeks. -/
structure SChan where
  data : List Nat
  pos : Nat
  rfaults : List (Option IoErr)
  wfaults : List (Option IoErr)
  sfaults : List (Option IoErr)
deriving DecidableEq

/-- One raw read at the cursor of the seekable channel. -/
def SChan.read (n : Nat) (c : SChan) : Except IoErr (List Nat × SChan) :=
  match c.rfaults with
  | some e :: _ => .error e
  | none :: rest =>
    .ok ((c.data.drop c.pos).take n,
      { c with pos := c.pos + min n (c.data.length - c.pos), rfaults := rest })
  | [] =>
    .ok ((c.data.drop c.pos).take n,
      { c with pos := c.pos + min n (c.data.length - c.pos) })

/-- One relative seek of the seekable channel's cursor. -/
def SChan.seek (off : Int) (c : SChan) : Except IoErr (Nat × SChan) :=
  match c.sfaults with
  | some e :: _ => .error e
  | none :: rest =>
    let p := ((c.pos : Int) + off).toNat
    .ok (p, { c with pos := p, sfaults := rest })
  | [] =>
    let p := ((c.pos : Int) + off).toNat
    .ok (p, { c with pos := p })

/-- One raw write at the cursor, overwriting in place and zero-padding any
gap past the end. -/
def SChan.write (bs : List Nat) (c : SChan) : Except IoErr SChan :=
  match c.wfaults with
  | some e :: _ => .error e
  | none :: rest =>
    .ok { c with
      data := c.data.take c.pos ++ List.replicate (c.pos - c.data.length) 0
        ++ bs ++ c.data.drop (c.pos + bs.length),
      pos := c.pos + bs.length, wfaults := rest }
  | [] =>
    .ok { c with
      data := c.data.take c.pos ++ List.replicate (c.pos - c.data.length) 0
        ++ bs ++ c.data.drop (c.pos + bs.length),
      pos := c.pos + bs.length }

/-- std BufReader over the seekable channel. -/
structure RBufReader where
  cap : Nat
  buf : List Nat
  chan : SChan
deriving DecidableEq

/-- std BufReader::read over the seekable channel; same policy as the
sequential model. -/
def RBufReader.read (n : Nat) (r : RBufReader) : Except IoErr (List Nat × RBufReader) :=
  if r.buf = [] then
    if r.cap ≤ n then
      match SChan.read n r.chan with
      | .error e => .error e
      | .ok (bs, c) => .ok (bs, { r with chan := c })
    else
      match SChan.read r.cap r.chan with
      | .error e => .error e
      | .ok (bs, c) => .ok (bs.take n, { r with buf := bs.drop n, chan := c })
  else
    .ok (r.buf.take n, { r with buf := r.buf.drop n })

/-- std BufReader::seek with SeekFrom::Current(0): seek the underlying
channel back by the lookahead length, then discard the lookahead.  On a
seek error the reader is left as it was. -/
def RBufReader.seekCur0 (r : RBufReader) : Except IoErr (Nat × RBufReader) :=
  match SChan.seek (0 - (r.buf.length : Int)) r.chan with
  | .error e => .error e
  | .ok (p, c) => .ok (p, { r with buf := [], chan := c })

/-- std BufWriter over the seekable channel. -/
structure RBufWriter where
  cap : Nat
  buf : List Nat
  chan : SChan
deriving DecidableEq

/-- std BufWriter::flush over the seekable channel. -/
def RBufWriter.flush (w : RBufWriter) : Except IoErr RBufWriter :=
  if w.buf = [] then .ok w
  else
    match SChan.write w.buf w.chan with
    | .error e => .error e
    | .ok c => .ok { w with buf := [], chan := c }

/-- std BufWriter::write over the seekable channel. -/
def RBufWriter.write (bs : List Nat) (w : RBufWriter) : Except IoErr (Nat × RBufWriter) :=
  if w.cap < w.buf.length + bs.length then
    match RBufWriter.flush w with
    | .error e => .error e
    | .ok w1 =>
      if w1.cap ≤ bs.length then
        match SChan.write bs w1.chan with
        | .error e => .error e
        | .ok c => .ok (bs.length, { w1 with chan := c })
      else .ok (bs.length, { w1 with buf := bs })
  else .ok (bs.length, { w with buf := w.buf ++ bs })

/-- std BufWriter::into_inner over the seekable channel. -/
def RBufWriter.intoInner (w : RBufWriter) : Except IoErr SChan :=
  match RBufWriter.flush w with
  | .error e => .error e
  | .ok w1 => .ok w1.chan

/-- The tagged union of the two wrappers (enum BufIO in src/rand.rs). -/
inductive RBufIo where
  | Reader (r : RBufReader) : RBufIo
  | Writer (w : RBufWriter) : RBufIo
deriving DecidableEq

/-- The random-access dual-mode stream (struct BufReaderWriterRand in
src/rand.rs; the struct BufReaderWriter in src/lib.rs implements the same
protocol through a Cell). -/
structure BufReaderWriterRand where
  inner : Option RBufIo
deriving DecidableEq

/-- BufReaderWriterRand::new_writer. -/
def BufReaderWriterRand.new_writer (rw : SChan) : BufReaderWriterRand :=
  ⟨some (RBufIo.Writer ⟨defaultBufCap, [], rw⟩)⟩

/-- BufReaderWriterRand::new_reader. -/
def BufReaderWriterRand.new_reader (rw : SChan) : BufReaderWriterRand :=
  ⟨some (RBufIo.Reader ⟨defaultBufCap, [], rw⟩)⟩

/-- BufReaderWriterRand::read.  In write mode: flush, reclaim the channel,
rebuild a reader and re-dispatch once. -/
def BufReaderWriterRand.read (n : Nat) (t : BufReaderWriterRand) :
    Option (Except IoErr (List Nat) × BufReaderWriterRand) :=
  match t.inner with
  | none => none
  | some (RBufIo.Reader r) =>
    some (match RBufReader.read n r with
      | .ok (bs, r') => (.ok bs, ⟨some (RBufIo.Reader r')⟩)
      | .error e => (.error e, t))
  | some (RBufIo.Writer w) =>
    match RBufWriter.flush w with
    | .error e => some (.error e, t)
    | .ok w1 =>
      match RBufWriter.intoInner w1 with
      | .error e => some (.error e, ⟨none⟩)
      | .ok rw =>
        let r : RBufReader := ⟨defaultBufCap, [], rw⟩
        some (match RBufReader.read n r with
          | .ok (bs, r') => (.ok bs, ⟨some (RBufIo.Reader r')⟩)
          | .error e => (.error e, ⟨some (RBufIo.Reader r)⟩))

/-- BufReaderWriterRand::write.  In read mode: a relative seek of 0 (which
repositions the channel to the logical read position and discards the
lookahead), then rebuild a writer over the reclaimed channel and retry the
write once; a seek failure aborts the switch. -/
def BufReaderWriterRand.write (bs : List Nat) (t : BufReaderWriterRand) :
    Option (Except IoErr Nat × BufReaderWriterRand) :=
  match t.inner with
  | none => none
  | some (RBufIo.Writer w) =>
    some (match RBufWriter.write bs w with
      | .ok (n, w') => (.ok n, ⟨some (RBufIo.Writer w')⟩)
      | .error e => (.error e, t))
  | some (RBufIo.Reader r) =>
    match RBufReader.seekCur0 r with
    | .error e => some (.error e, t)
    | .ok (_, r') =>
      let w : RBufWriter := ⟨defaultBufCap, [], r'.chan⟩
      some (match RBufWriter.write bs w with
        | .ok (n, w') => (.ok n, ⟨some (RBufIo.Writer w')⟩)
        | .error e => (.error e, ⟨some (RBufIo.Writer w)⟩))

/-- A small fault-free sequential channel used by the concrete witnesses. -/
def exChan : Chan := ⟨[10, 11, 12, 13], [], [], []⟩

/-- Concrete stream for the C2 counterexample: carry-over of one byte, an
empty-lookahead reader whose next raw channel read fails with error 7. -/
def c2s : BufReaderWriterSeq :=
  ⟨some (BufIo.Reader ⟨2, [], ⟨[], [], [RawRead.fail ⟨7⟩], []⟩⟩), some [5], 0, some 2⟩

/-- Concrete read-mode stream with a non-empty lookahead, for the C1
witness. -/
def c1s : BufReaderWriterSeq :=
  ⟨some (BufIo.Reader ⟨2, [9, 9], exChan⟩), none, 0, some 2⟩

/-- Concrete write-mode stream whose flush fails with error 3, for the C3
witness. -/
def c3s : BufReaderWriterSeq :=
  ⟨some (BufIo.Writer ⟨2, [5], ⟨[], [], [], [some ⟨3⟩]⟩⟩), none, 0, some 2⟩

/-- Concrete random-access write-mode stream whose flush fails with error
4, for the C3 witness. -/
def c3t : BufReaderWriterRand :=
  ⟨some (RBufIo.Writer ⟨2, [5], ⟨[], 0, [], [some ⟨4⟩], []⟩⟩)⟩

/-- Concrete read-mode stream with a three-byte carry-over, for the C4, C5
and C10 witnesses. -/
def c4s : BufReaderWriterSeq :=
  ⟨some (BufIo.Reader ⟨2, [], exChan⟩), some [1, 2, 3], 0, some 2⟩

/-- Concrete random-access read-mode stream with lookahead [20, 21] and
cursor 4, for the C7 witness. -/
def c7t : BufReaderWriterRand :=
  ⟨some (RBufIo.Reader ⟨2, [20, 21], ⟨[30, 31, 32, 33], 4, [], [], []⟩⟩)⟩

/-- Concrete read-mode stream with an empty-lookahead reader and a
two-byte carry-over, for the C9 witness. -/
def c9s : BufReaderWriterSeq :=
  ⟨some (BufIo.Reader ⟨2, [], exChan⟩), some [1, 2], 0, some 2⟩

/-- Operation list for the C6 and C8 witnesses: exercises both mode
switches and a consume. -/
def exOps : List Op := [Op.read 1, Op.write [4], Op.flush, Op.read 2, Op.consume 1]

/-- Post state of the C6 witness run. -/
def c6post : BufReaderWriterSeq :=
  (runOps exOps (BufReaderWriterSeq.reader_with_capacity 3 exChan)).getD
    (BufReaderWriterSeq.reader_with_capacity 3 exChan)

/-- Post state of the C8 witness run. -/
def c8post : BufReaderWriterSeq :=
  (runOps exOps (BufReaderWriterSeq.new_reader exChan)).getD
    (BufReaderWriterSeq.new_reader exChan)

/-! ### Basic lemmas about the channel and wrapper capabilities -/

/-- Taking the full remaining length of a dropped list is the identity. -/
theorem take_len_sub_drop (b : List Nat) (p : Nat) :
    (b.drop p).take (b.length - p) = b.drop p := by
  rw [← List.length_drop]
  exact List.take_length (b.drop p)

/-- A successful raw channel read delivers a prefix of the input stream and
leaves the rest; the write side is untouched. -/
theorem chanRead_spec {n : Nat} {c c' : Chan} {bs : List Nat}
    (h : Chan.read n c = .ok (bs, c')) :
    bs ++ c'.input = c.input ∧ c'.output = c.output ∧ c'.wfaults = c.wfaults := by
  unfold Chan.read at h
  split at h
  · simp only [Except.ok.injEq, Prod.mk.injEq] at h
    obtain ⟨rfl, rfl⟩ := h
    simp
  · exact Except.noConfusion h
  · simp only [Except.ok.injEq, Prod.mk.injEq] at h
    obtain ⟨rfl, rfl⟩ := h
    simp

/-- A successful raw channel write leaves the read side untouched. -/
theorem chanWrite_spec {bs : List Nat} {c c' : Chan}
    (h : Chan.write bs c = .ok c') :
    c'.input = c.input ∧ c'.rscript = c.rscript := by
  unfold Chan.write at h
  split at h
  · exact Except.noConfusion h
  · simp only [Except.ok.injEq] at h
    subst h
    exact ⟨rfl, rfl⟩
  · simp only [Except.ok.injEq] at h
    subst h
    exact ⟨rfl, rfl⟩

/-- A successful buffered read delivers a prefix of lookahead-then-input
and keeps the remainder, preserving the configured capacity. -/
theorem BufReader.read_spec {n : Nat} {r r' : BufReader} {bs : List Nat}
    (h : BufReader.read n r = .ok (bs, r')) :
    bs ++ (r'.buf ++ r'.chan.input) = r.buf ++ r.chan.input ∧ r'.cap = r.cap := by
  unfold BufReader.read at h
  split at h
  next hbuf =>
    split at h
    · split at h
      next => exact Except.noConfusion h
      next bs0 c hc =>
        simp only [Except.ok.injEq, Prod.mk.injEq] at h
        obtain ⟨rfl, rfl⟩ := h
        simp [hbuf, (chanRead_spec hc).1]
    · split at h
      next => exact Except.noConfusion h
      next bs0 c hc =>
        simp only [Except.ok.injEq, Prod.mk.injEq] at h
        obtain ⟨rfl, rfl⟩ := h
        refine ⟨?_, rfl⟩
        simp only [hbuf, List.nil_append]
        rw [← List.append_assoc, List.take_append_drop]
        exact (chanRead_spec hc).1
  next hbuf =>
    simp only [Except.ok.injEq, Prod.mk.injEq] at h
    obtain ⟨rfl, rfl⟩ := h
    refine ⟨?_, rfl⟩
    rw [← List.append_assoc]
    show List.take n r.buf ++ List.drop n r.buf ++ r.chan.input = _
    rw [List.take_append_drop]

/-- A successful flush empties the write-back buffer and leaves the read
side of the channel and the capacity untouched. -/
theorem BufWriter.flush_spec {w w' : BufWriter} (h : BufWriter.flush w = .ok w') :
    w'.buf = [] ∧ w'.chan.input = w.chan.input ∧ w'.chan.rscript = w.chan.rscript ∧
      w'.cap = w.cap := by
  unfold BufWriter.flush at h
  split at h
  next hbuf =>
    simp only [Except.ok.injEq] at h
    subst h
    exact ⟨hbuf, rfl, rfl, rfl⟩
  next =>
    split at h
    · exact Except.noConfusion h
    next c hc =>
      simp only [Except.ok.injEq] at h
      subst h
      exact ⟨rfl, (chanWrite_spec hc).1, (chanWrite_spec hc).2, rfl⟩

/-- into_inner of a writer whose buffer is already empty returns the
channel unchanged. -/
theorem BufWriter.intoInner_of_empty {w : BufWriter} (h : w.buf = []) :
    BufWriter.intoInner w = .ok w.chan := by
  unfold BufWriter.intoInner BufWriter.flush
  simp [h]

/-- A successful buffered write reports the full length and leaves the
read side of the channel and the capacity untouched. -/
theorem BufWriter.write_spec {bs : List Nat} {w : BufWriter} {n : Nat} {w' : BufWriter}
    (h : BufWriter.write bs w = .ok (n, w')) :
    w'.chan.input = w.chan.input ∧ w'.chan.rscript = w.chan.rscript ∧
      w'.cap = w.cap ∧ n = bs.length := by
  unfold BufWriter.write at h
  split at h
  · split at h
    · exact Except.noConfusion h
    next w1 hf =>
      obtain ⟨_, hi1, hr1, hc1⟩ := BufWriter.flush_spec hf
      split at h
      · split at h
        · exact Except.noConfusion h
        next c hc =>
          simp only [Except.ok.injEq, Prod.mk.injEq] at h
          obtain ⟨rfl, rfl⟩ := h
          exact ⟨(chanWrite_spec hc).1.trans hi1, (chanWrite_spec hc).2.trans hr1, hc1, rfl⟩
      · simp only [Except.ok.injEq, Prod.mk.injEq] at h
        obtain ⟨rfl, rfl⟩ := h
        exact ⟨hi1, hr1, hc1, rfl⟩
  · simp only [Except.ok.injEq, Prod.mk.injEq] at h
    obtain ⟨rfl, rfl⟩ := h
    exact ⟨rfl, rfl, rfl, rfl⟩

/-- A reader-mode read that fails leaves the stream exactly as it was (the
carry-over bytes are retained). -/
theorem BufReaderWriterSeq.readR_err {n : Nat} {r : BufReader}
    {s s' : BufReaderWriterSeq} {e : IoErr}
    (h : BufReaderWriterSeq.readR n r s = (.error e, s')) : s' = s := by
  unfold BufReaderWriterSeq.readR at h
  split at h
  · split at h
    · split at h <;>
        (simp only [Prod.mk.injEq] at h; exact Except.noConfusion h.1)
    · split at h
      · simp only [Prod.mk.injEq] at h
        exact Except.noConfusion h.1
      · simp only [Prod.mk.injEq] at h
        exact h.2.symm
  · split at h
    · simp only [Prod.mk.injEq] at h
      exact Except.noConfusion h.1
    · simp only [Prod.mk.injEq] at h
      exact h.2.symm

/-- A successful reader-mode read delivers a prefix of the stream's pending
bytes and leaves exactly the remainder pending: carry-over bytes first, in
order, without duplication or loss. -/
theorem BufReaderWriterSeq.readR_pending {n : Nat} {r : BufReader}
    {s s' : BufReaderWriterSeq} {out : List Nat}
    (hi : s.inner = some (BufIo.Reader r))
    (h : BufReaderWriterSeq.readR n r s = (.ok out, s')) :
    out ++ s'.pending = s.pending := by
  unfold BufReaderWriterSeq.readR at h
  split at h
  next b hb =>
    split at h
    next hle =>
      split at h
      next hlt =>
        simp only [Prod.mk.injEq, Except.ok.injEq] at h
        obtain ⟨rfl, rfl⟩ := h
        simp only [BufReaderWriterSeq.pending, BufReaderWriterSeq.carryRem, hb, hi,
          BufIo.pending]
        have key : (b.drop s.pos).take n ++ b.drop (s.pos + n) = b.drop s.pos := by
          rw [← List.drop_drop, List.take_append_drop]
        rw [← List.append_assoc, key]
      next hlt =>
        simp only [Prod.mk.injEq, Except.ok.injEq] at h
        obtain ⟨rfl, rfl⟩ := h
        simp only [BufReaderWriterSeq.pending, BufReaderWriterSeq.carryRem, hb, hi,
          BufIo.pending]
        have hn : n = b.length - s.pos := by omega
        rw [hn, take_len_sub_drop, List.nil_append]
    next hle =>
      split at h
      next bs r' hrd =>
        simp only [Prod.mk.injEq, Except.ok.injEq] at h
        obtain ⟨rfl, rfl⟩ := h
        simp only [BufReaderWriterSeq.pending, BufReaderWriterSeq.carryRem, hb, hi,
          BufIo.pending]
        rw [take_len_sub_drop, List.nil_append, List.append_assoc,
          (BufReader.read_spec hrd).1]
      next hrd =>
        simp only [Prod.mk.injEq] at h
        exact Except.noConfusion h.1
  next hb =>
    split at h
    next bs r' hrd =>
      simp only [Prod.mk.injEq, Except.ok.injEq] at h
      obtain ⟨rfl, rfl⟩ := h
      simp only [BufReaderWriterSeq.pending, BufReaderWriterSeq.carryRem, hb, hi,
        BufIo.pending, List.nil_append]
      exact (BufReader.read_spec hrd).1
    next hrd =>
      simp only [Prod.mk.injEq] at h
      exact Except.noConfusion h.1

/-- Shape of the post state of a reader-mode read, for invariant
preservation: either the stream is unchanged, or only pos advanced and
stays strictly inside the carry-over buffer, or the carry-over buffer was
dropped and the active wrapper is a reader of the same capacity. -/
theorem BufReaderWriterSeq.readR_cases {n : Nat} {r : BufReader}
    {s s' : BufReaderWriterSeq} {res : Except IoErr (List Nat)}
    (h : BufReaderWriterSeq.readR n r s = (res, s')) :
    s' = s ∨
    (∃ b, s.buffer = some b ∧ s.pos + n < b.length ∧ s' = { s with pos := s.pos + n }) ∨
    (s'.buffer = none ∧ s'.pos = s.pos ∧ s'.capacity = s.capacity ∧
      (s'.inner = s.inner ∨ ∃ r', r'.cap = r.cap ∧ s'.inner = some (BufIo.Reader r'))) := by
  unfold BufReaderWriterSeq.readR at h
  split at h
  next b hb =>
    split at h
    next hle =>
      split at h
      next hlt =>
        simp only [Prod.mk.injEq] at h
        refine Or.inr (Or.inl ⟨b, hb, by omega, h.2.symm⟩)
      next hlt =>
        simp only [Prod.mk.injEq] at h
        obtain ⟨rfl, rfl⟩ := h
        exact Or.inr (Or.inr ⟨rfl, rfl, rfl, Or.inl rfl⟩)
    next hle =>
      split at h
      next bs r' hrd =>
        simp only [Prod.mk.injEq] at h
        obtain ⟨rfl, rfl⟩ := h
        exact Or.inr (Or.inr ⟨rfl, rfl, rfl,
          Or.inr ⟨r', (BufReader.read_spec hrd).2, rfl⟩⟩)
      next hrd =>
        simp only [Prod.mk.injEq] at h
        exact Or.inl h.2.symm
  next hb =>
    split at h
    next bs r' hrd =>
      simp only [Prod.mk.injEq] at h
      obtain ⟨rfl, rfl⟩ := h
      exact Or.inr (Or.inr ⟨hb, rfl, rfl,
        Or.inr ⟨r', (BufReader.read_spec hrd).2, rfl⟩⟩)
    next hrd =>
      simp only [Prod.mk.injEq] at h
      exact Or.inl h.2.symm

/-! ### Claims C2, C4, C5, C9, C10 -/

/-- Claim C5: for a stream whose carry-over buffer holds r unconsumed
bytes, consume(amt) with amt at least r leaves buffer() absent, and
consume(amt) with amt below r leaves buffer() returning exactly the
not-yet-consumed suffix of r - amt bytes. -/
theorem c5_consume_buffer_accounting (s : BufReaderWriterSeq) (b : List Nat) (amt : Nat)
    (hb : s.buffer = some b) (hp : s.pos < b.length) :
    (b.length - s.pos ≤ amt → (BufReaderWriterSeq.consume amt s).bufferFn = none) ∧
    (amt < b.length - s.pos →
      (BufReaderWriterSeq.consume amt s).bufferFn = some ((b.drop s.pos).drop amt) ∧
      ((b.drop s.pos).drop amt).length = (b.length - s.pos) - amt) := by
  constructor
  · intro hge
    have hc : b.length ≤ s.pos + amt := by omega
    simp [BufReaderWriterSeq.consume, hb, if_pos hc, BufReaderWriterSeq.bufferFn]
  · intro hlt
    have hc : ¬ b.length ≤ s.pos + amt := by omega
    refine ⟨?_, ?_⟩
    · simp [BufReaderWriterSeq.consume, hb, if_neg hc, BufReaderWriterSeq.bufferFn,
        List.drop_drop]
    · simp only [List.length_drop]

/-- Witness for C5 at a concrete stream: consuming 1 of the 3-byte
carry-over leaves exactly the 2-byte suffix. -/
theorem c5_witness : (BufReaderWriterSeq.consume 1 c4s).bufferFn = some [2, 3] := by
  have h := ((c5_consume_buffer_accounting c4s [1, 2, 3] 1 rfl (by decide)).2 (by decide)).1
  simpa using h

/-- Claim C10 (implicit zero-length-read edge case): in read mode with a
carry-over buffer present, a read into an empty buffer returns Ok(0),
performs no channel access and leaves the whole stream, carry-over buffer
and pos included, unchanged. -/
theorem c10_zero_length_read (s : BufReaderWriterSeq) (r : BufReader) (b : List Nat)
    (hi : s.inner = some (BufIo.Reader r)) (hb : s.buffer = some b)
    (hp : s.pos < b.length) :
    BufReaderWriterSeq.read 0 s = some (.ok [], s) := by
  have h1 : (0 : Nat) ≤ b.length - s.pos := Nat.zero_le _
  have h2 : (0 : Nat) < b.length - s.pos := by omega
  unfold BufReaderWriterSeq.read BufReaderWriterSeq.readR
  simp only [hi, hb, if_pos h1, if_pos h2, List.take_zero, Nat.add_zero]
  rw [← hi, ← hb]

/-- Witness for C10 at a concrete stream. -/
theorem c10_witness : BufReaderWriterSeq.read 0 c4s = some (.ok [], c4s) :=
  c10_zero_length_read c4s ⟨2, [], exChan⟩ [1, 2, 3] rfl rfl (by decide)

/-- Claim C4: reader-mode dispatch over the carry-over buffer.  When the
buffer holds at least n unconsumed bytes, exactly n bytes are copied from
it, pos advances by n (or the buffer is dropped when exactly consumed) and
the reader is untouched; when it holds fewer, all remaining carry-over
bytes come first, the one buffered-reader call fills the rest, and the
buffer is dropped. -/
theorem c4_read_dispatch (s : BufReaderWriterSeq) (r : BufReader) (b : List Nat) (n : Nat)
    (hi : s.inner = some (BufIo.Reader r)) (hb : s.buffer = some b)
    (hp : s.pos < b.length) :
    (n ≤ b.length - s.pos →
      BufReaderWriterSeq.read n s = some (.ok ((b.drop s.pos).take n),
        if n < b.length - s.pos then { s with pos := s.pos + n }
        else { s with buffer := none })) ∧
    (b.length - s.pos < n → ∀ bs r', BufReader.read (n - (b.length - s.pos)) r = .ok (bs, r') →
      BufReaderWriterSeq.read n s = some (.ok (b.drop s.pos ++ bs),
        { s with buffer := none, inner := some (BufIo.Reader r') })) := by
  constructor
  · intro hle
    unfold BufReaderWriterSeq.read BufReaderWriterSeq.readR
    simp only [hi, hb, if_pos hle]
    by_cases hlt : n < b.length - s.pos
    · rw [if_pos hlt, if_pos hlt]
    · rw [if_neg hlt, if_neg hlt]
  · intro hgt bs r' hrd
    have hle : ¬ n ≤ b.length - s.pos := by omega
    unfold BufReaderWriterSeq.read BufReaderWriterSeq.readR
    simp only [hi, hb, if_neg hle, hrd, take_len_sub_drop]

/-- Witness for C4 at a concrete stream: a 2-byte read out of a 3-byte
carry-over advances pos and leaves the channel untouched. -/
theorem c4_witness :
    BufReaderWriterSeq.read 2 c4s = some (.ok [1, 2], { c4s with pos := 2 }) := by
  have h := (c4_read_dispatch c4s ⟨2, [], exChan⟩ [1, 2, 3] 2 rfl rfl (by decide)).1
    (by decide)
  simpa using h

/-- Claim C2 as stated is false on the code: a read partially served from
the carry-over buffer whose channel read then fails returns the error but
RETAINS the carry-over buffer (here still some [5] afterwards), it is not
dropped. -/
theorem c2_counterexample :
    BufReaderWriterSeq.read 2 c2s = some (.error ⟨7⟩, c2s) ∧ c2s.buffer ≠ none := by
  exact ⟨rfl, by simp [c2s]⟩

/-- Claim C2, amended: when the carry-over buffer holds fewer unconsumed
bytes than requested and the single channel read into the remainder fails,
the error is returned to the caller and the stream, carry-over buffer and
pos included, is left unchanged, so those bytes will be delivered again by
a later read (no loss). -/
theorem c2_read_error_retains_carryover (s : BufReaderWriterSeq) (r : BufReader)
    (b : List Nat) (n : Nat) (e : IoErr)
    (hi : s.inner = some (BufIo.Reader r)) (hb : s.buffer = some b)
    (hlt : b.length - s.pos < n)
    (hr : BufReader.read (n - (b.length - s.pos)) r = .error e) :
    BufReaderWriterSeq.read n s = some (.error e, s) := by
  have hle : ¬ n ≤ b.length - s.pos := by omega
  unfold BufReaderWriterSeq.read BufReaderWriterSeq.readR
  simp only [hi, hb, if_neg hle, hr]

/-- Witness for the amended C2 at the counterexample stream. -/
theorem c2_witness : BufReaderWriterSeq.read 2 c2s = some (.error ⟨7⟩, c2s) :=
  c2_read_error_retains_carryover c2s ⟨2, [], ⟨[], [], [RawRead.fail ⟨7⟩], []⟩⟩ [5] 2 ⟨7⟩
    rfl rfl (by decide) rfl

/-- Claim C9 (implicit frame effect): a read-to-write switch with an
already-present carry-over buffer keeps it, pos included, exactly when the
reader lookahead is empty; a non-empty lookahead replaces it entirely with
pos reset to 0. -/
theorem c9_write_switch_carryover_frame (s : BufReaderWriterSeq) (r : BufReader)
    (b bs : List Nat)
    (hi : s.inner = some (BufIo.Reader r)) (hb : s.buffer = some b) :
    (r.buf = [] → ∃ res s', BufReaderWriterSeq.write bs s = some (res, s') ∧
      s'.buffer = some b ∧ s'.pos = s.pos) ∧
    (r.buf ≠ [] → ∃ res s', BufReaderWriterSeq.write bs s = some (res, s') ∧
      s'.buffer = some r.buf ∧ s'.pos = 0) := by
  constructor
  · intro he
    rcases hw : BufWriter.write bs (⟨s.capacity.getD defaultBufCap, [], r.chan⟩ : BufWriter)
      with e | ⟨nn, w'⟩
    · refine ⟨.error e,
        { s with inner := some (BufIo.Writer ⟨s.capacity.getD defaultBufCap, [], r.chan⟩) },
        ?_, by simp [hb], rfl⟩
      simp [BufReaderWriterSeq.write, hi, he, BufReaderWriterSeq.writeW, hw]
    · refine ⟨.ok nn, { s with inner := some (BufIo.Writer w') }, ?_, by simp [hb], rfl⟩
      simp [BufReaderWriterSeq.write, hi, he, BufReaderWriterSeq.writeW, hw]
  · intro he
    rcases hw : BufWriter.write bs (⟨s.capacity.getD defaultBufCap, [], r.chan⟩ : BufWriter)
      with e | ⟨nn, w'⟩
    · refine ⟨.error e, { s with buffer := some r.buf, pos := 0, inner := some (BufIo.Writer ⟨s.capacity.getD defaultBufCap, [], r.chan⟩) }, ?_, by simp, rfl⟩
      simp [BufReaderWriterSeq.write, hi, if_neg he, BufReaderWriterSeq.writeW, hw]
    · refine ⟨.ok nn, { s with buffer := some r.buf, pos := 0, inner := some (BufIo.Writer w') }, ?_, by simp, rfl⟩
      simp [BufReaderWriterSeq.write, hi, if_neg he, BufReaderWriterSeq.writeW, hw]

/-- Witness for C9 at a concrete stream: switching to write mode with an
empty lookahead keeps the existing carry-over buffer [1, 2] at pos 0. -/
theorem c9_witness :
    ((BufReaderWriterSeq.write [7] c9s).map fun p => (p.2.buffer, p.2.pos)) =
      some (some ([1, 2] : List Nat), 0) := by
  obtain ⟨res, s', hw, hb, hp⟩ :=
    (c9_write_switch_carryover_frame c9s ⟨2, [], exChan⟩ [1, 2] [7] rfl rfl).1 rfl
  rw [hw]
  simp [hb, hp, c9s]

/-! ### Claims C3 and C7 -/

/-- A reader-mode read leaves the stream with an active mode. -/
theorem BufReaderWriterSeq.readR_inner_isSome {n : Nat} {r : BufReader}
    {s s' : BufReaderWriterSeq} {res : Except IoErr (List Nat)}
    (hs : s.inner.isSome) (h : BufReaderWriterSeq.readR n r s = (res, s')) :
    s'.inner.isSome := by
  rcases BufReaderWriterSeq.readR_cases h with rfl | ⟨b, hb, hlt, rfl⟩ |
    ⟨h1, h2, h3, h4 | ⟨r', hc, hr⟩⟩
  · exact hs
  · exact hs
  · rw [h4]; exact hs
  · rw [hr]; rfl

/-- A successful flush of the seekable-channel writer empties its buffer. -/
theorem RBufWriter.flush_buf_empty {w w' : RBufWriter}
    (h : RBufWriter.flush w = .ok w') : w'.buf = [] := by
  unfold RBufWriter.flush at h
  split at h
  next hbuf =>
    simp only [Except.ok.injEq] at h
    subst h
    exact hbuf
  next =>
    split at h
    · exact Except.noConfusion h
    · simp only [Except.ok.injEq] at h
      subst h
      rfl

/-- into_inner of a seekable-channel writer whose buffer is already empty
returns the channel unchanged. -/
theorem rbufIntoInner_of_empty {w : RBufWriter} (h : w.buf = []) :
    RBufWriter.intoInner w = .ok w.chan := by
  unfold RBufWriter.intoInner RBufWriter.flush
  simp [h]

/-- Claim C3: if the flush at the start of a mode-switching read fails, the
call returns that flush error and the stream is left exactly as it was
(write mode, same writer, and for the sequential variant the same
carry-over buffer and configured capacity); moreover, in both variants, a
read issued in write mode always leaves the stream with an active mode. -/
theorem c3_flush_failure_atomicity :
    (∀ (s : BufReaderWriterSeq) (w : BufWriter) (n : Nat) (e : IoErr),
      s.inner = some (BufIo.Writer w) → BufWriter.flush w = .error e →
      BufReaderWriterSeq.read n s = some (.error e, s)) ∧
    (∀ (s : BufReaderWriterSeq) (w : BufWriter) (n : Nat),
      s.inner = some (BufIo.Writer w) →
      ∀ res s', BufReaderWriterSeq.read n s = some (res, s') → s'.inner.isSome) ∧
    (∀ (t : BufReaderWriterRand) (w : RBufWriter) (n : Nat) (e : IoErr),
      t.inner = some (RBufIo.Writer w) → RBufWriter.flush w = .error e →
      BufReaderWriterRand.read n t = some (.error e, t)) ∧
    (∀ (t : BufReaderWriterRand) (w : RBufWriter) (n : Nat),
      t.inner = some (RBufIo.Writer w) →
      ∀ res t', BufReaderWriterRand.read n t = some (res, t') → t'.inner.isSome) := by
  refine ⟨?_, ?_, ?_, ?_⟩
  · intro s w n e hi hf
    unfold BufReaderWriterSeq.read
    simp [hi, hf]
  · intro s w n hi res s' h
    unfold BufReaderWriterSeq.read at h
    rw [hi] at h
    simp only at h
    rcases hf : BufWriter.flush w with e | w1
    · rw [hf] at h
      simp only [Option.some.injEq, Prod.mk.injEq] at h
      rw [← h.2, hi]
      rfl
    · rw [hf] at h
      simp only at h
      rw [BufWriter.intoInner_of_empty (BufWriter.flush_spec hf).1] at h
      simp only [Option.some.injEq] at h
      exact BufReaderWriterSeq.readR_inner_isSome (by rfl) h
  · intro t w n e hi hf
    unfold BufReaderWriterRand.read
    simp [hi, hf]
  · intro t w n hi res t' h
    unfold BufReaderWriterRand.read at h
    rw [hi] at h
    simp only at h
    rcases hf : RBufWriter.flush w with e | w1
    · rw [hf] at h
      simp only [Option.some.injEq, Prod.mk.injEq] at h
      rw [← h.2, hi]
      rfl
    · rw [hf] at h
      simp only at h
      rw [rbufIntoInner_of_empty (RBufWriter.flush_buf_empty hf)] at h
      simp only [Option.some.injEq] at h
      rcases hr : RBufReader.read n (⟨defaultBufCap, [], w1.chan⟩ : RBufReader)
        with e2 | ⟨bs2, r2⟩ <;> rw [hr] at h <;>
        simp only [Prod.mk.injEq] at h <;> rw [← h.2] <;> rfl

/-- Witness for C3 at a concrete sequential stream whose flush fails with
error 3: the read reports the error and the stream is unchanged. -/
theorem c3_witness : BufReaderWriterSeq.read 1 c3s = some (.error ⟨3⟩, c3s) :=
  c3_flush_failure_atomicity.1 c3s ⟨2, [5], ⟨[], [], [], [some ⟨3⟩]⟩⟩ 1 ⟨3⟩ rfl rfl

/-- The cursor and contents after a successful relative seek. -/
theorem SChan.seek_spec {off : Int} {c : SChan} {p : Nat} {c' : SChan}
    (h : SChan.seek off c = .ok (p, c')) :
    c'.pos = ((c.pos : Int) + off).toNat ∧ c'.data = c.data := by
  unfold SChan.seek at h
  split at h
  · exact Except.noConfusion h
  · simp only [Except.ok.injEq, Prod.mk.injEq] at h
    obtain ⟨rfl, rfl⟩ := h
    exact ⟨rfl, rfl⟩
  · simp only [Except.ok.injEq, Prod.mk.injEq] at h
    obtain ⟨rfl, rfl⟩ := h
    exact ⟨rfl, rfl⟩

/-- Claim C7: the random-access read-to-write switch first performs a
relative seek of 0 on the buffered reader (moving the channel cursor back
over the unread lookahead to the logical read position and discarding that
lookahead), then rebuilds a buffered writer over the reclaimed channel and
retries the write exactly once; a seek failure returns the error and
leaves the stream unchanged in read mode.  (src/lib.rs implements the same
protocol.) -/
theorem c7_rand_read_to_write_switch (t : BufReaderWriterRand) (r : RBufReader)
    (bs : List Nat) (hi : t.inner = some (RBufIo.Reader r)) :
    (∀ e, SChan.seek (0 - (r.buf.length : Int)) r.chan = .error e →
      BufReaderWriterRand.write bs t = some (.error e, t)) ∧
    (∀ p c', SChan.seek (0 - (r.buf.length : Int)) r.chan = .ok (p, c') →
      (r.buf.length ≤ r.chan.pos → c'.pos = r.chan.pos - r.buf.length) ∧
      BufReaderWriterRand.write bs t = some (
        match RBufWriter.write bs ⟨defaultBufCap, [], c'⟩ with
        | .ok (nn, w') => (.ok nn, ⟨some (RBufIo.Writer w')⟩)
        | .error e => (.error e, ⟨some (RBufIo.Writer ⟨defaultBufCap, [], c'⟩)⟩))) := by
  constructor
  · intro e hs
    unfold BufReaderWriterRand.write RBufReader.seekCur0
    simp only [hi, hs]
  · intro p c' hs
    constructor
    · intro hle
      have := (SChan.seek_spec hs).1
      omega
    · unfold BufReaderWriterRand.write RBufReader.seekCur0
      simp only [hi, hs]

/-- Witness for C7 at a concrete stream: lookahead [20, 21] with cursor 4
is discarded, the cursor lands on 2, and the retried one-byte write
succeeds against the rebuilt writer. -/
theorem c7_witness :
    BufReaderWriterRand.write [42] c7t =
      some (.ok 1,
        ⟨some (RBufIo.Writer ⟨defaultBufCap, [42], ⟨[30, 31, 32, 33], 2, [], [], []⟩⟩)⟩) := by
  have h := ((c7_rand_read_to_write_switch c7t
    ⟨2, [20, 21], ⟨[30, 31, 32, 33], 4, [], [], []⟩⟩ [42] rfl).2
    2 ⟨[30, 31, 32, 33], 2, [], [], []⟩ rfl).2
  simpa using h

/-! ### Invariant preservation machinery for C1, C6, C8 -/

/-- Unfolding characterization of the capacity invariant. -/
theorem capWf_iff {c : Nat} {s : BufReaderWriterSeq} :
    capWf c s = true ↔
      s.capacity = some c ∧ ∃ x, s.inner = some x ∧ BufIo.capacity x = c := by
  unfold capWf
  rcases hi : s.inner with _ | x
  · simp [hi]
  · simp [hi]

/-- Any state whose active wrapper is a writer satisfies the carry-over
versus lookahead invariant trivially. -/
theorem carryWf_writer (s : BufReaderWriterSeq) (w : BufWriter) :
    carryWf { s with inner := some (BufIo.Writer w) } = true := by
  unfold carryWf
  rcases hb : s.buffer with _ | b <;> simp [hb]

/-- A reader-mode read preserves the three stream invariants. -/
theorem BufReaderWriterSeq.readR_preserves {c n : Nat} {r : BufReader}
    {s s' : BufReaderWriterSeq} {res : Except IoErr (List Nat)}
    (h : BufReaderWriterSeq.readR n r s = (res, s')) :
    (bufWf s = true → bufWf s' = true) ∧
    (carryWf s = true → carryWf s' = true) ∧
    (capWf c s = true → r.cap = c → capWf c s' = true) := by
  rcases BufReaderWriterSeq.readR_cases h with rfl | ⟨b, hb, hlt, rfl⟩ |
    ⟨h1, h2, h3, h4⟩
  · exact ⟨id, id, fun hc _ => hc⟩
  · refine ⟨?_, ?_, ?_⟩
    · intro _
      simp only [bufWf, hb]
      simp only [decide_eq_true_eq]
      omega
    · intro hc
      exact hc
    · intro hc _
      exact hc
  · refine ⟨?_, ?_, ?_⟩
    · intro _
      simp [bufWf, h1]
    · intro _
      simp [carryWf, h1]
    · intro hc hrc
      rw [capWf_iff] at hc ⊢
      obtain ⟨hcs, x, hx, hxc⟩ := hc
      refine ⟨h3.trans hcs, ?_⟩
      rcases h4 with h4 | ⟨r', hcap, hr⟩
      · exact ⟨x, h4.trans hx, hxc⟩
      · exact ⟨BufIo.Reader r', hr, by simp [BufIo.capacity, hcap, hrc]⟩

/-- One public operation preserves the three stream invariants. -/
theorem stepOp_preserves (c : Nat) (op : Op) {s s' : BufReaderWriterSeq}
    (h : stepOp op s = some s') :
    (bufWf s = true → bufWf s' = true) ∧
    (carryWf s = true → carryWf s' = true) ∧
    (capWf c s = true → capWf c s' = true) := by
  cases op with
  | consume amt =>
    simp only [stepOp, Option.some.injEq] at h
    subst h
    unfold BufReaderWriterSeq.consume
    rcases hb : s.buffer with _ | b
    · exact ⟨id, id, id⟩
    · simp only [hb]
      by_cases hc : b.length ≤ s.pos + amt
      · rw [if_pos hc]
        refine ⟨fun _ => by simp [bufWf], fun _ => by simp [carryWf], fun hcs => hcs⟩
      · rw [if_neg hc]
        refine ⟨fun _ => ?_, fun hcw => ?_, fun hcs => hcs⟩
        · simp only [bufWf]
          simp only [decide_eq_true_eq]
          omega
        · unfold carryWf at hcw ⊢
          rw [hb] at hcw
          exact hcw
  | flush =>
    simp only [stepOp, Option.some.injEq] at h
    subst h
    unfold BufReaderWriterSeq.flush
    rcases hi : s.inner with _ | x
    · exact ⟨id, id, id⟩
    rcases x with r | w
    · exact ⟨id, id, id⟩
    · rcases hf : BufWriter.flush w with e | w1
      · simp only [hf]
        exact ⟨id, id, id⟩
      · simp only [hf]
        refine ⟨fun hb => hb, fun _ => carryWf_writer s w1, fun hcs => ?_⟩
        rw [capWf_iff] at hcs ⊢
        obtain ⟨h1, x, hx, hxc⟩ := hcs
        rw [hi] at hx
        injection hx with hx
        subst hx
        refine ⟨h1, BufIo.Writer w1, rfl, ?_⟩
        simp only [BufIo.capacity] at hxc ⊢
        rw [(BufWriter.flush_spec hf).2.2.2, hxc]
  | read n =>
    simp only [stepOp] at h
    unfold BufReaderWriterSeq.read at h
    rcases hi : s.inner with _ | x
    · rw [hi] at h
      exact absurd h (by simp)
    rcases x with r | w
    · rw [hi] at h
      simp only at h
      rcases hp : BufReaderWriterSeq.readR n r s with ⟨resv, s2⟩
      rw [hp] at h
      simp only [Option.map_some', Option.some.injEq] at h
      subst h
      have hpre := BufReaderWriterSeq.readR_preserves (c := c) hp
      refine ⟨hpre.1, hpre.2.1, fun hcs => ?_⟩
      refine hpre.2.2 hcs ?_
      rw [capWf_iff] at hcs
      obtain ⟨h1, x, hx, hxc⟩ := hcs
      rw [hi] at hx
      injection hx with hx
      subst hx
      simpa [BufIo.capacity] using hxc
    · rw [hi] at h
      simp only at h
      rcases hf : BufWriter.flush w with e | w1
      · rw [hf] at h
        simp only [Option.map_some', Option.some.injEq] at h
        subst h
        exact ⟨id, id, id⟩
      · rw [hf] at h
        simp only at h
        rw [BufWriter.intoInner_of_empty (BufWriter.flush_spec hf).1] at h
        simp only at h
        rcases hp : BufReaderWriterSeq.readR n
          (⟨s.capacity.getD defaultBufCap, [], w1.chan⟩ : BufReader)
          { s with inner := some (BufIo.Reader
            (⟨s.capacity.getD defaultBufCap, [], w1.chan⟩ : BufReader)) } with ⟨resv, s2⟩
        rw [hp] at h
        simp only [Option.map_some', Option.some.injEq] at h
        subst h
        have hpre := BufReaderWriterSeq.readR_preserves (c := c) hp
        refine ⟨fun hb => hpre.1 hb, fun _ => ?_, fun hcs => ?_⟩
        · refine hpre.2.1 ?_
          unfold carryWf
          rcases hb : s.buffer with _ | b <;> simp [hb]
        · rw [capWf_iff] at hcs
          obtain ⟨h1, x, hx, hxc⟩ := hcs
          refine hpre.2.2 ?_ ?_
          · rw [capWf_iff]
            exact ⟨h1, BufIo.Reader ⟨s.capacity.getD defaultBufCap, [], w1.chan⟩, rfl,
              by simp [BufIo.capacity, h1]⟩
          · simp [h1]
  | write bs =>
    simp only [stepOp] at h
    unfold BufReaderWriterSeq.write at h
    rcases hi : s.inner with _ | x
    · rw [hi] at h
      exact absurd h (by simp)
    rcases x with r | w
    · rw [hi] at h
      simp only at h
      unfold BufReaderWriterSeq.writeW at h
      by_cases he : r.buf = []
      · rw [if_pos he] at h
        rcases hw : BufWriter.write bs
          (⟨s.capacity.getD defaultBufCap, [], r.chan⟩ : BufWriter) with e | ⟨nn, w'⟩ <;>
          rw [hw] at h <;>
          simp only [Option.map_some', Option.some.injEq] at h <;>
          subst h
        · refine ⟨fun hb => hb, fun _ => carryWf_writer s _, fun hcs => ?_⟩
          rw [capWf_iff] at hcs ⊢
          obtain ⟨h1, x, hx, hxc⟩ := hcs
          exact ⟨h1, _, rfl, by simp [BufIo.capacity, h1]⟩
        · refine ⟨fun hb => hb, fun _ => carryWf_writer s _, fun hcs => ?_⟩
          rw [capWf_iff] at hcs ⊢
          obtain ⟨h1, x, hx, hxc⟩ := hcs
          refine ⟨h1, BufIo.Writer w', rfl, ?_⟩
          simp only [BufIo.capacity]
          rw [(BufWriter.write_spec hw).2.2.1]
          simp [h1]
      · rw [if_neg he] at h
        rcases hw : BufWriter.write bs
          (⟨s.capacity.getD defaultBufCap, [], r.chan⟩ : BufWriter) with e | ⟨nn, w'⟩ <;>
          rw [hw] at h <;>
          simp only [Option.map_some', Option.some.injEq] at h <;>
          subst h
        · refine ⟨fun _ => ?_, fun _ => ?_, fun hcs => ?_⟩
          · simp only [bufWf]
            simp only [decide_eq_true_eq]
            exact List.length_pos.mpr he
          · unfold carryWf
            simp
          · rw [capWf_iff] at hcs ⊢
            obtain ⟨h1, x, hx, hxc⟩ := hcs
            exact ⟨h1, _, rfl, by simp [BufIo.capacity, h1]⟩
        · refine ⟨fun _ => ?_, fun _ => ?_, fun hcs => ?_⟩
          · simp only [bufWf]
            simp only [decide_eq_true_eq]
            exact List.length_pos.mpr he
          · unfold carryWf
            simp
          · rw [capWf_iff] at hcs ⊢
            obtain ⟨h1, x, hx, hxc⟩ := hcs
            refine ⟨h1, BufIo.Writer w', rfl, ?_⟩
            simp only [BufIo.capacity]
            rw [(BufWriter.write_spec hw).2.2.1]
            simp [h1]
    · rw [hi] at h
      simp only at h
      unfold BufReaderWriterSeq.writeW at h
      rcases hw : BufWriter.write bs w with e | ⟨nn, w'⟩
      · rw [hw] at h
        simp only [Option.map_some', Option.some.injEq] at h
        subst h
        exact ⟨id, id, id⟩
      · rw [hw] at h
        simp only [Option.map_some', Option.some.injEq] at h
        subst h
        refine ⟨fun hb => hb, fun _ => carryWf_writer s w', fun hcs => ?_⟩
        rw [capWf_iff] at hcs ⊢
        obtain ⟨h1, x, hx, hxc⟩ := hcs
        rw [hi] at hx
        injection hx with hx
        subst hx
        refine ⟨h1, BufIo.Writer w', rfl, ?_⟩
        simp only [BufIo.capacity] at hxc ⊢
        rw [(BufWriter.write_spec hw).2.2.1, hxc]

/-- A whole operation sequence preserves the three stream invariants. -/
theorem runOps_preserves (c : Nat) (ops : List Op) {s s' : BufReaderWriterSeq}
    (h : runOps ops s = some s') :
    (bufWf s = true → bufWf s' = true) ∧
    (carryWf s = true → carryWf s' = true) ∧
    (capWf c s = true → capWf c s' = true) := by
  induction ops generalizing s with
  | nil =>
    simp only [runOps, Option.some.injEq] at h
    subst h
    exact ⟨id, id, id⟩
  | cons op ops ih =>
    simp only [runOps] at h
    rcases ho : stepOp op s with _ | s1
    · rw [ho] at h
      exact absurd h (by simp)
    · rw [ho] at h
      simp only [Option.some_bind] at h
      have h1 := stepOp_preserves c op ho
      have h2 := ih h
      exact ⟨fun hb => h2.1 (h1.1 hb), fun hb => h2.2.1 (h1.2.1 hb),
        fun hb => h2.2.2 (h1.2.2 hb)⟩

/-! ### Claims C6, C8, C1 -/

/-- Claim C6: a sequential stream built with an explicit capacity reports
that same capacity after any sequence of operations, however many mode
switches they cause, because every rebuilt wrapper is constructed with the
capacity fixed at construction. -/
theorem c6_capacity_stability (c : Nat) (rw : Chan) (ops : List Op)
    (s' : BufReaderWriterSeq) :
    (runOps ops (BufReaderWriterSeq.reader_with_capacity c rw) = some s' →
      s'.capacityFn = c) ∧
    (runOps ops (BufReaderWriterSeq.writer_with_capacity c rw) = some s' →
      s'.capacityFn = c) := by
  constructor
  · intro h
    have hc : capWf c (BufReaderWriterSeq.reader_with_capacity c rw) = true := by
      rw [capWf_iff]
      exact ⟨rfl, _, rfl, by simp [BufIo.new_reader, BufIo.capacity]⟩
    have h2 := (runOps_preserves c ops h).2.2 hc
    rw [capWf_iff] at h2
    obtain ⟨h3, x, hx, hxc⟩ := h2
    simp [BufReaderWriterSeq.capacityFn, hx, hxc]
  · intro h
    have hc : capWf c (BufReaderWriterSeq.writer_with_capacity c rw) = true := by
      rw [capWf_iff]
      exact ⟨rfl, _, rfl, by simp [BufIo.new_writer, BufIo.capacity]⟩
    have h2 := (runOps_preserves c ops h).2.2 hc
    rw [capWf_iff] at h2
    obtain ⟨h3, x, hx, hxc⟩ := h2
    simp [BufReaderWriterSeq.capacityFn, hx, hxc]

/-- Witness for C6: after a run with two mode switches, a stream built
with capacity 3 still reports capacity 3. -/
theorem c6_witness : c6post.capacityFn = 3 :=
  (c6_capacity_stability 3 exChan exOps c6post).1 rfl

/-- Claim C8: every stream reachable from a constructor by read, write,
flush and consume operations keeps the carry-over buffer well-formed: when
present, pos is strictly below its length, so buffer() on a present buffer
always returns a non-empty slice and an absent buffer is never observably
confused with an empty present one. -/
theorem c8_carryover_wf_invariant :
    (∀ ch, bufWf (BufReaderWriterSeq.new_reader ch) = true) ∧
    (∀ ch, bufWf (BufReaderWriterSeq.new_writer ch) = true) ∧
    (∀ c ch, bufWf (BufReaderWriterSeq.reader_with_capacity c ch) = true) ∧
    (∀ c ch, bufWf (BufReaderWriterSeq.writer_with_capacity c ch) = true) ∧
    (∀ (ops : List Op) (s s' : BufReaderWriterSeq), bufWf s = true →
      runOps ops s = some s' →
      bufWf s' = true ∧
        ∀ b, s'.buffer = some b →
          s'.bufferFn = some (b.drop s'.pos) ∧ b.drop s'.pos ≠ []) := by
  refine ⟨fun ch => rfl, fun ch => rfl, fun c ch => rfl, fun c ch => rfl, ?_⟩
  intro ops s s' hb h
  have hb' := (runOps_preserves 0 ops h).1 hb
  refine ⟨hb', ?_⟩
  intro b hbs
  have hlt : s'.pos < b.length := by
    unfold bufWf at hb'
    rw [hbs] at hb'
    simpa using hb'
  constructor
  · simp [BufReaderWriterSeq.bufferFn, hbs]
  · have h1 : (b.drop s'.pos).length = b.length - s'.pos := by simp
    intro hcon
    rw [hcon] at h1
    simp at h1
    omega

/-- Witness for C8: the invariant holds of the concrete state reached by a
run with two mode switches and a consume. -/
theorem c8_witness : bufWf c8post = true :=
  (c8_carryover_wf_invariant.2.2.2.2 exOps (BufReaderWriterSeq.new_reader exChan) c8post
    (c8_carryover_wf_invariant.1 exChan) rfl).1

/-- Switching a write-mode stream to read mode after a successful flush
does not change the pending byte stream. -/
theorem pending_switch_to_reader {s : BufReaderWriterSeq} {w w1 : BufWriter}
    (hi : s.inner = some (BufIo.Writer w)) (hf : BufWriter.flush w = .ok w1) :
    BufReaderWriterSeq.pending
      { s with inner := some (BufIo.Reader
        (⟨s.capacity.getD defaultBufCap, [], w1.chan⟩ : BufReader)) } =
      BufReaderWriterSeq.pending s := by
  unfold BufReaderWriterSeq.pending
  simp only [hi, BufIo.pending, (BufWriter.flush_spec hf).2.1, List.nil_append]
  rfl

/-- Claim C1: no data loss across a sequential read-to-write switch.  A
write in read mode with a non-empty lookahead captures it verbatim as the
carry-over buffer at pos 0 and installs a writer (with an empty lookahead
the carry-over buffer and pos are untouched); every successful read
delivers a prefix of the stream's pending bytes (carry-over bytes first,
in order) and leaves exactly the remainder; failed reads, writes and
flushes leave the pending bytes intact; and every operation preserves the
reachable-state invariant that a present carry-over buffer in read mode
coexists only with an empty lookahead. -/
theorem c1_seq_no_data_loss :
    (∀ (s : BufReaderWriterSeq) (r : BufReader) (bs : List Nat),
      s.inner = some (BufIo.Reader r) → r.buf ≠ [] →
      ∃ res s', BufReaderWriterSeq.write bs s = some (res, s') ∧
        s'.buffer = some r.buf ∧ s'.pos = 0 ∧
        ∃ w, s'.inner = some (BufIo.Writer w)) ∧
    (∀ (s : BufReaderWriterSeq) (r : BufReader) (bs : List Nat),
      s.inner = some (BufIo.Reader r) → r.buf = [] →
      ∃ res s', BufReaderWriterSeq.write bs s = some (res, s') ∧
        s'.buffer = s.buffer ∧ s'.pos = s.pos ∧
        ∃ w, s'.inner = some (BufIo.Writer w)) ∧
    (∀ (s s' : BufReaderWriterSeq) (n : Nat) (out : List Nat),
      BufReaderWriterSeq.read n s = some (.ok out, s') →
      out ++ s'.pending = s.pending) ∧
    (∀ (s s' : BufReaderWriterSeq) (n : Nat) (e : IoErr),
      BufReaderWriterSeq.read n s = some (.error e, s') →
      s'.pending = s.pending) ∧
    (∀ (s s' : BufReaderWriterSeq) (bs : List Nat) (res : Except IoErr Nat),
      carryWf s = true → BufReaderWriterSeq.write bs s = some (res, s') →
      s'.pending = s.pending) ∧
    (∀ (s s' : BufReaderWriterSeq) (res : Except IoErr Unit),
      BufReaderWriterSeq.flush s = (res, s') → s'.pending = s.pending) ∧
    (∀ (op : Op) (s s' : BufReaderWriterSeq),
      carryWf s = true → stepOp op s = some s' → carryWf s' = true) := by
  refine ⟨?_, ?_, ?_, ?_, ?_, ?_, ?_⟩
  · intro s r bs hi he
    rcases hw : BufWriter.write bs (⟨s.capacity.getD defaultBufCap, [], r.chan⟩ : BufWriter)
      with e | ⟨nn, w'⟩
    · refine ⟨.error e, { s with buffer := some r.buf, pos := 0, inner := some (BufIo.Writer ⟨s.capacity.getD defaultBufCap, [], r.chan⟩) }, ?_, by simp, rfl, ⟨_, rfl⟩⟩
      simp [BufReaderWriterSeq.write, hi, if_neg he, BufReaderWriterSeq.writeW, hw]
    · refine ⟨.ok nn, { s with buffer := some r.buf, pos := 0, inner := some (BufIo.Writer w') }, ?_, by simp, rfl, ⟨_, rfl⟩⟩
      simp [BufReaderWriterSeq.write, hi, if_neg he, BufReaderWriterSeq.writeW, hw]
  · intro s r bs hi he
    rcases hw : BufWriter.write bs (⟨s.capacity.getD defaultBufCap, [], r.chan⟩ : BufWriter)
      with e | ⟨nn, w'⟩
    · refine ⟨.error e, { s with inner := some (BufIo.Writer ⟨s.capacity.getD defaultBufCap, [], r.chan⟩) }, ?_, rfl, rfl, ⟨_, rfl⟩⟩
      simp [BufReaderWriterSeq.write, hi, he, BufReaderWriterSeq.writeW, hw]
    · refine ⟨.ok nn, { s with inner := some (BufIo.Writer w') }, ?_, rfl, rfl, ⟨_, rfl⟩⟩
      simp [BufReaderWriterSeq.write, hi, he, BufReaderWriterSeq.writeW, hw]
  · intro s s' n out h
    unfold BufReaderWriterSeq.read at h
    rcases hi : s.inner with _ | x
    · rw [hi] at h
      exact absurd h (by simp)
    rcases x with r | w
    · rw [hi] at h
      simp only at h
      simp only [Option.some.injEq] at h
      exact BufReaderWriterSeq.readR_pending hi h
    · rw [hi] at h
      simp only at h
      rcases hf : BufWriter.flush w with e | w1
      · rw [hf] at h
        simp only [Option.some.injEq, Prod.mk.injEq] at h
        exact Except.noConfusion h.1
      · rw [hf] at h
        simp only at h
        rw [BufWriter.intoInner_of_empty (BufWriter.flush_spec hf).1] at h
        simp only [Option.some.injEq] at h
        have h2 := BufReaderWriterSeq.readR_pending (r := ⟨s.capacity.getD defaultBufCap, [], w1.chan⟩) rfl h
        rw [← pending_switch_to_reader hi hf]
        exact h2
  · intro s s' n e h
    unfold BufReaderWriterSeq.read at h
    rcases hi : s.inner with _ | x
    · rw [hi] at h
      exact absurd h (by simp)
    rcases x with r | w
    · rw [hi] at h
      simp only at h
      simp only [Option.some.injEq] at h
      rw [BufReaderWriterSeq.readR_err h]
    · rw [hi] at h
      simp only at h
      rcases hf : BufWriter.flush w with e1 | w1
      · rw [hf] at h
        simp only [Option.some.injEq, Prod.mk.injEq] at h
        rw [← h.2]
      · rw [hf] at h
        simp only at h
        rw [BufWriter.intoInner_of_empty (BufWriter.flush_spec hf).1] at h
        simp only [Option.some.injEq] at h
        rw [BufReaderWriterSeq.readR_err h]
        exact pending_switch_to_reader hi hf
  · intro s s' bs res hcw h
    unfold BufReaderWriterSeq.write at h
    rcases hi : s.inner with _ | x
    · rw [hi] at h
      exact absurd h (by simp)
    rcases x with r | w
    · rw [hi] at h
      simp only at h
      unfold BufReaderWriterSeq.writeW at h
      by_cases he : r.buf = []
      · rw [if_pos he] at h
        rcases hw : BufWriter.write bs
          (⟨s.capacity.getD defaultBufCap, [], r.chan⟩ : BufWriter) with e | ⟨nn, w'⟩ <;>
          rw [hw] at h <;>
          simp only [Option.some.injEq, Prod.mk.injEq] at h <;>
          obtain ⟨h1, rfl⟩ := h
        · unfold BufReaderWriterSeq.pending
          simp only [hi, BufIo.pending, he, List.nil_append]
          rfl
        · unfold BufReaderWriterSeq.pending
          simp only [hi, BufIo.pending, he, List.nil_append,
            (BufWriter.write_spec hw).1]
          rfl
      · have hbn : s.buffer = none := by
          rcases hbs : s.buffer with _ | b
          · rfl
          · exfalso
            unfold carryWf at hcw
            rw [hbs, hi] at hcw
            simp only [decide_eq_true_eq] at hcw
            exact he hcw
        rw [if_neg he] at h
        rcases hw : BufWriter.write bs
          (⟨s.capacity.getD defaultBufCap, [], r.chan⟩ : BufWriter) with e | ⟨nn, w'⟩ <;>
          rw [hw] at h <;>
          simp only [Option.some.injEq, Prod.mk.injEq] at h <;>
          obtain ⟨h1, rfl⟩ := h
        · unfold BufReaderWriterSeq.pending BufReaderWriterSeq.carryRem
          simp only [hi, hbn, BufIo.pending, List.nil_append, List.drop_zero]
        · unfold BufReaderWriterSeq.pending BufReaderWriterSeq.carryRem
          simp only [hi, hbn, BufIo.pending, List.nil_append, List.drop_zero,
            (BufWriter.write_spec hw).1]
    · rw [hi] at h
      simp only at h
      unfold BufReaderWriterSeq.writeW at h
      rcases hw : BufWriter.write bs w with e | ⟨nn, w'⟩ <;>
        rw [hw] at h <;>
        simp only [Option.some.injEq, Prod.mk.injEq] at h <;>
        obtain ⟨h1, rfl⟩ := h
      · rfl
      · unfold BufReaderWriterSeq.pending
        simp only [hi, BufIo.pending, (BufWriter.write_spec hw).1]
        rfl
  · intro s s' res h
    unfold BufReaderWriterSeq.flush at h
    rcases hi : s.inner with _ | x
    · rw [hi] at h
      simp only [Prod.mk.injEq] at h
      obtain ⟨h1, rfl⟩ := h
      rfl
    rcases x with r | w
    · rw [hi] at h
      simp only [Prod.mk.injEq] at h
      obtain ⟨h1, rfl⟩ := h
      rfl
    · rw [hi] at h
      simp only at h
      rcases hf : BufWriter.flush w with e | w1 <;>
        rw [hf] at h <;>
        simp only [Prod.mk.injEq] at h <;>
        obtain ⟨h1, rfl⟩ := h
      · rfl
      · unfold BufReaderWriterSeq.pending
        simp only [hi, BufIo.pending, (BufWriter.flush_spec hf).2.1]
        rfl
  · intro op s s' hcw h
    exact (stepOp_preserves 0 op h).2.1 hcw

/-- Witness for C1 at a concrete stream: a write while the reader holds
lookahead [9, 9] captures exactly those bytes at pos 0. -/
theorem c1_witness :
    ((BufReaderWriterSeq.write [7] c1s).map fun p => (p.2.buffer, p.2.pos)) =
      some (some ([9, 9] : List Nat), 0) := by
  obtain ⟨res, s', hw, hb, hp, w, hiw⟩ :=
    c1_seq_no_data_loss.1 c1s ⟨2, [9, 9], exChan⟩ [7] rfl (by decide)
  rw [hw]
  simp [hb, hp]
